import Mathlib

/-!
# todds / png2dds conversion pipeline

A shallow embedding of the pipeline stages of `src/task/pipeline.cpp`,
`src/pipeline/filter_decode_png.cpp` and `src/pipeline/filter_pixel_blocks.cpp`.

Conventions of the embedding:
* `std::size_t` values are natural numbers; arithmetic that can wrap is reduced modulo `2 ^ 64`;
* bytes are natural numbers below 256;
* a stage that touches shared state (the atomic counter, the error queue, the file system)
  takes the state as an argument and returns the new state;
* code that lives outside the translated sources (the PNG decoder, the block encoders, the
  resampling kernel, the pixel reblocking) is a function parameter.
-/

namespace todds

/-! ## Basic data -/

/-- The value `std::numeric_limits<std::size_t>::max()` on a 64-bit target. -/
def size_max : Nat := 2 ^ 64 - 1

/-- The constant `error_file_index` of `pipeline.cpp:34` and `filter_common.hpp:23`. -/
def error_file_index : Nat := size_max

/-- A `paths_vector`: one (source path, destination path) pair per input file. -/
abbrev paths_vector := List (String × String)

/-- The bytes of a string literal, one per character. -/
def string_bytes (s : String) : List Nat := s.data.map Char.toNat

/-- The in-memory bytes of a `w`-byte unsigned integer, for a little-endian (`le = true`) or
big-endian host. This is what `reinterpret_cast<const char*>` exposes to `ofstream::write`. -/
def uint_bytes (le : Bool) (w : Nat) (v : Nat) : List Nat :=
  let low_first := (List.range w).map (fun i => (v / 256 ^ i) % 256)
  if le then low_first else low_first.reverse

/-- The memory image of an array of `std::uint64_t` blocks. -/
def blocks_bytes (le : Bool) (blocks : List Nat) : List Nat :=
  blocks.flatMap (uint_bytes le 8)

/-! ## The DDS container pieces -/

/-- Modelled from the spec: the enumerator `DXGI_FORMAT_BC7_UNORM` of `dds_defs.h`, which is not
among the sources (the spec names it `BC7_UNORM`); 98 is its value in the DXGI format
enumeration. -/
def DXGI_FORMAT_BC7_UNORM : Nat := 98

/-- Modelled from the spec: the enumerator `D3D10_RESOURCE_DIMENSION_TEXTURE2D` of `dds_defs.h`,
which is not among the sources (the spec names it `TEXTURE2D`); 3 is its value in the D3D10
resource dimension enumeration. -/
def D3D10_RESOURCE_DIMENSION_TEXTURE2D : Nat := 3

/-- The struct `DDS_HEADER_DXT10`: five 32-bit fields. -/
structure DDS_HEADER_DXT10 where
  dxgiFormat : Nat
  resourceDimension : Nat
  miscFlag : Nat
  arraySize : Nat
  miscFlags2 : Nat
  deriving DecidableEq, Repr

/-- The constant `header_extension` of `pipeline.cpp:36`. -/
def header_extension : DDS_HEADER_DXT10 :=
  ⟨DXGI_FORMAT_BC7_UNORM, D3D10_RESOURCE_DIMENSION_TEXTURE2D, 0, 1, 0⟩

/-- The `sizeof(header_extension)` bytes of a `DDS_HEADER_DXT10` object in memory. -/
def DDS_HEADER_DXT10.bytes (le : Bool) (e : DDS_HEADER_DXT10) : List Nat :=
  uint_bytes le 4 e.dxgiFormat ++ uint_bytes le 4 e.resourceDimension ++
    uint_bytes le 4 e.miscFlag ++ uint_bytes le 4 e.arraySize ++ uint_bytes le 4 e.miscFlags2

/-- What the writers use of a `dds_image`: `header()`, `blocks()` and `file_index()`. -/
structure dds_image where
  header : List Nat
  blocks : List Nat
  file_index : Nat
  deriving DecidableEq, Repr

/-- Modelled from the spec: the default constructor `dds_image{}` (`dds_image.hpp` is not among
the sources). The spec says that error-sentinel inputs are passed through as error-sentinel
outputs, so the default-constructed image carries `ERROR_INDEX` and no data. -/
def dds_image.empty : dds_image := ⟨[], [], error_file_index⟩

/-! ## Output streams -/

/-- The operations a stage issues on a `boost::nowide::ofstream`. -/
inductive stream_op where
  | open_out (path : String)
  | put (bytes : List Nat)
  | close
  deriving DecidableEq, Repr

/-- All bytes put on the stream by a sequence of operations, in order. -/
def written_bytes : List stream_op → List Nat
  | [] => []
  | stream_op.put bs :: rest => bs ++ written_bytes rest
  | _ :: rest => written_bytes rest

/-- The paths opened by a sequence of operations. -/
def opened_paths : List stream_op → List String
  | [] => []
  | stream_op.open_out p :: rest => p :: opened_paths rest
  | _ :: rest => opened_paths rest

/-- A file system: the regular files and their contents. -/
abbrev file_system := List (String × List Nat)

/-- The content of a file, `none` when there is no such file. -/
def file_system.content (fs : file_system) (p : String) : Option (List Nat) :=
  (fs.find? (fun e => e.1 == p)).map (fun e => e.2)

/-- Replace (or create) the file at `p`. -/
def file_system.store (fs : file_system) (p : String) (bytes : List Nat) : file_system :=
  (p, bytes) :: fs.filter (fun e => !(e.1 == p))

/-- Run stream operations against a file system. `can_open` says for which paths the constructor
of `boost::nowide::ofstream` manages to open the file (the directory exists, the file may be
written). `cur` is the open file, if any. A successful open with `std::ios::out |
std::ios::binary` creates or truncates the destination; a failed open creates nothing and leaves
the stream without a file. A `put` appends to the open file; the writers never test the stream,
and a `put` on a stream without a file is lost. -/
def apply_ops (can_open : String → Bool) (fs : file_system) (cur : Option String) :
    List stream_op → file_system
  | [] => fs
  | stream_op.open_out p :: rest =>
    if can_open p then apply_ops can_open (fs.store p []) (some p) rest
    else apply_ops can_open fs none rest
  | stream_op.put bs :: rest =>
    match cur with
    | some p => apply_ops can_open (fs.store p ((fs.content p).getD [] ++ bs)) cur rest
    | none => apply_ops can_open fs cur rest
  | stream_op.close :: rest => apply_ops can_open fs none rest

/-- Whether every open among the operations succeeds. -/
def all_opened (can_open : String → Bool) (ops : List stream_op) : Bool :=
  (opened_paths ops).all can_open

/-! ## Stage 5: the DDS writers (`pipeline.cpp:122-162`) -/

/-- The number of bytes `block_size_bytes` handed to the last `ofs.write`: the product is taken
in `std::size_t` and then cast to `std::ptrdiff_t`; a negative count writes nothing. -/
def block_size_bytes (img : dds_image) : Nat :=
  let n := (img.blocks.length * 8) % 2 ^ 64
  if n < 2 ^ 63 then n else 0

/-- The functor `save_bc1_file::operator()`. The result is the sequence of stream operations
issued; `none` stands for the out-of-range subscript `_paths[file_index]`, which is undefined. -/
def save_bc1_file (le : Bool) (paths : paths_vector) (dds_img : dds_image) :
    Option (List stream_op) :=
  if dds_img.file_index = error_file_index then some []
  else
    match paths[dds_img.file_index]? with
    | none => none
    | some p =>
      some [stream_op.open_out p.2,
        stream_op.put (string_bytes "DDS "),
        stream_op.put dds_img.header,
        stream_op.put ((blocks_bytes le dds_img.blocks).take (block_size_bytes dds_img)),
        stream_op.close]

/-- The functor `save_bc7_file::operator()`: as `save_bc1_file`, with the header extension written
after the header. -/
def save_bc7_file (le : Bool) (paths : paths_vector) (dds_img : dds_image) :
    Option (List stream_op) :=
  if dds_img.file_index = error_file_index then some []
  else
    match paths[dds_img.file_index]? with
    | none => none
    | some p =>
      some [stream_op.open_out p.2,
        stream_op.put (string_bytes "DDS "),
        stream_op.put dds_img.header,
        stream_op.put (header_extension.bytes le),
        stream_op.put ((blocks_bytes le dds_img.blocks).take (block_size_bytes dds_img)),
        stream_op.close]

/-! ## Stage 3: reblocking (`filter_pixel_blocks.cpp:9-21`) -/

/-- An `image`: its dimensions and its pixel buffer. -/
structure image where
  width : Nat
  height : Nat
  data : List Nat
  deriving DecidableEq, Repr

/-- A `mipmap_image`: the file index and the images of the levels, level 0 first. -/
structure mipmap_image where
  file_index : Nat
  images : List image
  deriving DecidableEq, Repr

/-- The number of levels, `mipmap_image::mipmap_count()`. -/
def mipmap_image.mipmap_count (m : mipmap_image) : Nat := m.images.length

/-- A `pixel_block_data`: the block images of every level and the file index. -/
structure pixel_block_data where
  image : List (List Nat)
  file_index : Nat
  deriving DecidableEq, Repr

/-- The functor `get_pixel_blocks::operator()` of `filter_pixel_blocks.cpp`. A null
`std::unique_ptr` is `none`; `to_pixel_blocks` is the reblocking function, which is outside the
translated sources. -/
def get_pixel_blocks (to_pixel_blocks : mipmap_image → List (List Nat))
    (image : Option mipmap_image) : pixel_block_data :=
  match image with
  | none => ⟨[], error_file_index⟩
  | some img => ⟨to_pixel_blocks img, img.file_index⟩

/-! ## Stage 1: loading (`pipeline.cpp:38-62`) -/

/-- The struct `png_file`: the bytes of the file and its index. -/
structure png_file where
  buffer : List Nat
  file_index : Nat
  deriving DecidableEq, Repr

/-- The variables of `encode_as_dds` that the filters reference: the atomic `counter` and the
queue `error_log`. A push appends at the end of the list. -/
structure shared_vars where
  counter : Nat
  error_log : List String
  deriving DecidableEq, Repr

/-- Reading a whole file with `std::istreambuf_iterator` over an `ifstream`: a stream that could not
be opened yields an empty range. -/
def read_all (fs : file_system) (p : String) : List Nat :=
  (fs.content p).getD []

/-- What one invocation of the first filter produces: the returned `png_file`, and whether
`flow.stop()` was called (the returned value is then discarded by the pipeline). -/
structure load_output where
  file : png_file
  stop : Bool
  deriving DecidableEq, Repr

/-- The functor `load_png_file::operator()`. `_counter++` is an atomic fetch-and-add on a
`std::size_t`; `return {}` is a value-initialised `png_file`. The functor holds no reference to
the error queue, which is therefore returned as it was received. -/
def load_png_file (paths : paths_vector) (fs : file_system) (s : shared_vars) :
    load_output × shared_vars :=
  let index := s.counter
  let s1 : shared_vars := ⟨(s.counter + 1) % 2 ^ 64, s.error_log⟩
  if h : index < paths.length then
    (⟨⟨read_all fs paths[index].1, index⟩, false⟩, s1)
  else
    (⟨⟨[], 0⟩, true⟩, s1)

/-- Successive invocations of `load_png_file` by the serial first filter, until one of them stops
the flow or `fuel` invocations have been made. Returns the emitted files, whether the flow was
stopped, and the shared variables afterwards. -/
def load_until_stop (paths : paths_vector) (fs : file_system) :
    Nat → shared_vars → List png_file × Bool × shared_vars
  | 0, s => ([], false, s)
  | fuel + 1, s =>
    let r := load_png_file paths fs s
    if r.1.stop then ([], true, r.2)
    else
      let rest := load_until_stop paths fs fuel r.2
      (r.1.file :: rest.1, rest.2.1, rest.2.2)

/-- The shared variables after `k` invocations of `load_png_file`. -/
def after_loads (paths : paths_vector) (fs : file_system) : Nat → shared_vars → shared_vars
  | 0, s => s
  | k + 1, s => after_loads paths fs k (load_png_file paths fs s).2

/-! ## Stage 2: decoding and mipmaps (`filter_decode_png.cpp`) -/

/-- The interpolation kernels of `todds::filter::type`. -/
inductive filter_type where
  | nearest
  | linear
  | cubic
  | area
  | lanczos
  deriving DecidableEq, Repr

/-- The resampling kernel `cv::resize(input, output, output.size(), 0, 0, filter)`: from the source
image and the requested size it gives the pixels written to the output buffer, or throws. What
it throws is a `cv::Exception`, a class derived from `std::exception` and not from
`std::runtime_error`; `Except.error` carries its text. -/
abbrev resize_fn := image → Nat → Nat → filter_type → Except String (List Nat)

/-- The loop body of `process_image` run for the level indices of `order`, one after the other.
Every iteration reads `input` (level 0) and overwrites the buffer of its own level in place. The
second component is the text of the `cv::Exception` that interrupted the loop, if any; the
levels written before it stay written. -/
def process_levels (resize : resize_fn) (filter : filter_type) (input : image) :
    List Nat → List image → List image × Option String
  | [], imgs => (imgs, none)
  | k :: ks, imgs =>
    match imgs[k]? with
    | none => process_levels resize filter input ks imgs
    | some current_image =>
      match resize input current_image.width current_image.height filter with
      | Except.ok out =>
        process_levels resize filter input ks
          (imgs.set k ⟨current_image.width, current_image.height, out⟩)
      | Except.error what => (imgs, some what)

/-- The function `process_image`. `order` is the order in which `oneapi::tbb::parallel_for` runs the
indices of `blocked_range(1, mipmap_count())`. An image without levels is outside the domain of
the source (`get_image(0)`); the model leaves it alone. -/
def process_image (resize : resize_fn) (order : List Nat) (mipmap_img : mipmap_image)
    (filter : filter_type) : mipmap_image × Option String :=
  match mipmap_img.images with
  | [] => (mipmap_img, none)
  | input :: _ =>
    let r := process_levels resize filter input order mipmap_img.images
    (⟨mipmap_img.file_index, r.1⟩, r.2)

/-- The order of a sequential run of `blocked_range(1, count)`. -/
def sequential_order (count : Nat) : List Nat := List.range' 1 (count - 1)

/-- The struct `file_data` of `filter_common.hpp` (the `format` field is set by a later stage). -/
structure file_data where
  width : Nat
  height : Nat
  mipmaps : Nat
  deriving DecidableEq, Repr

/-- What a successful `png::decode` gives: the image with its levels allocated, and the unpadded
width and height it stores through its reference parameters. -/
structure decoded_png where
  result : mipmap_image
  width : Nat
  height : Nat
  deriving DecidableEq, Repr

/-- The PNG decoder `png::decode(file_index, path, buffer, vflip, width, height, mipmaps)`; a
`std::runtime_error` is `Except.error` with the text of `what()`. -/
abbrev png_decode_fn := Nat → String → List Nat → Bool → Bool → Except String decoded_png

/-- The state the functor `decode_png` references: `_files_data` and `_errors`. -/
structure decode_state where
  files_data : List file_data
  errors : List String
  deriving DecidableEq, Repr

/-- The message built by `fmt::format` in the handler of `decode_png::operator()`. -/
def decode_error_message (path what : String) : String :=
  "PNG Decoding error " ++ path ++ " -> " ++ what

/-- How an invocation of `decode_png::operator()` ends: it returns a `std::unique_ptr` (`none`
when null), or an exception that its handler does not catch leaves it. Both carry the state
afterwards. -/
inductive decode_outcome where
  | returned (result : Option mipmap_image) (st : decode_state)
  | uncaught (what : String) (st : decode_state)
  deriving DecidableEq, Repr

/-- The functor `decode_png::operator()`. The handler `catch (const std::runtime_error&)` catches
what `png::decode` throws: `result` is then still null, and one message is pushed. It does not
catch the `cv::Exception` of the resampling in `process_image`, which leaves the functor. The
subscripts `_paths[file_index]` and `_files_data[file_index]` are in range for every file that
the first filter emits. -/
def decode_png (decode : png_decode_fn) (resize : resize_fn) (order : Nat → List Nat)
    (paths : paths_vector) (vflip mipmaps : Bool) (filter : filter_type)
    (st : decode_state) (file : png_file) : decode_outcome :=
  if file.buffer.isEmpty then decode_outcome.returned none st
  else
    let path := (paths[file.file_index]?.map Prod.fst).getD ""
    match decode file.file_index path file.buffer vflip mipmaps with
    | Except.error what =>
      decode_outcome.returned none
        ⟨st.files_data, st.errors ++ [decode_error_message path what]⟩
    | Except.ok d =>
      let files_data := st.files_data.set file.file_index
        ⟨d.width, d.height, d.result.mipmap_count⟩
      match process_image resize (order d.result.mipmap_count) d.result filter with
      | (result, none) => decode_outcome.returned (some result) ⟨files_data, st.errors⟩
      | (_, some what) => decode_outcome.uncaught what ⟨files_data, st.errors⟩

/-- Whether `part` occurs in `text` as a contiguous run of characters. -/
def occurs_in (part text : String) : Prop := part.data <:+: text.data

/-! ## The stages of `pipeline.cpp` between loading and writing -/

/-- The `image` of `pipeline.cpp`: it carries its file index, its dimensions and its buffer. -/
structure raw_image where
  file_index : Nat
  width : Nat
  height : Nat
  buffer : List Nat
  deriving DecidableEq, Repr

/-- A `pixel_block_image`: the file index and the 4x4 pixel blocks. -/
structure pixel_block_image where
  file_index : Nat
  blocks : List (List Nat)
  deriving DecidableEq, Repr

/-- The two output formats of `png2dds::format::type`. -/
inductive format_type where
  | bc1
  | bc7
  deriving DecidableEq, Repr

/-- The functions that `pipeline.cpp` calls and that live outside the translated sources:
the decoder `png2dds::png::decode(file_index, path, buffer, vflip)`, the constructor
`pixel_block_image(image)`, and the block encoders with the BC7 parameter builder; and
`can_open`, the paths that `boost::nowide::ofstream` manages to open for writing. -/
structure externals where
  can_open : String → Bool
  decode : Nat → String → List Nat → Bool → Except String raw_image
  to_blocks : raw_image → pixel_block_image
  bc1_encode : Nat → pixel_block_image → dds_image
  bc7_encode_params : Nat → Nat
  bc7_encode : Nat → pixel_block_image → dds_image

/-- The functor `decode_png_image::operator()` of `pipeline.cpp:72-77`: a decoding error is pushed
on the queue and replaced by the image `(error_file_index, 0, 0)`. -/
def decode_png_image (ext : externals) (paths : paths_vector) (vflip : Bool)
    (s : shared_vars) (file : png_file) : raw_image × shared_vars :=
  match ext.decode file.file_index ((paths[file.file_index]?.map Prod.fst).getD "")
      file.buffer vflip with
  | Except.ok img => (img, s)
  | Except.error what =>
    (⟨error_file_index, 0, 0, []⟩, ⟨s.counter, s.error_log ++ ["PNG Decoding error -> " ++ what]⟩)

/-- The result of an encoding functor, with the number of calls it made to a block encoder. -/
structure encode_output where
  result : dds_image
  encoder_calls : Nat
  deriving DecidableEq, Repr

/-- The functor `encode_bc1_image::operator()` of `pipeline.cpp:95-100`. -/
def encode_bc1_image (ext : externals) (level : Nat) (pixel_image : pixel_block_image) :
    encode_output :=
  if pixel_image.file_index ≠ error_file_index then ⟨ext.bc1_encode level pixel_image, 1⟩
  else ⟨dds_image.empty, 0⟩

/-- The functor `encode_bc7_image::operator()` of `pipeline.cpp:111-116`; the constructor stores
`bc7_encode_params(level)`. -/
def encode_bc7_image (ext : externals) (level : Nat) (pixel_image : pixel_block_image) :
    encode_output :=
  if pixel_image.file_index ≠ error_file_index then
    ⟨ext.bc7_encode (ext.bc7_encode_params level) pixel_image, 1⟩
  else ⟨dds_image.empty, 0⟩

/-- The functor built by `encoding_filter` for a format. -/
def encode_image (ext : externals) (format : format_type) (level : Nat)
    (pixel_image : pixel_block_image) : encode_output :=
  match format with
  | format_type.bc1 => encode_bc1_image ext level pixel_image
  | format_type.bc7 => encode_bc7_image ext level pixel_image

/-- The functor built by `save_filter` for a format. -/
def save_file (le : Bool) (format : format_type) (paths : paths_vector) (dds_img : dds_image) :
    Option (List stream_op) :=
  match format with
  | format_type.bc1 => save_bc1_file le paths dds_img
  | format_type.bc7 => save_bc7_file le paths dds_img

/-! ## Pipeline assembly (`pipeline.cpp:195-239`, `filter_decode_png.cpp:81-85`,
`filter_pixel_blocks.cpp:23-26`) -/

/-- The scheduling modes of `oneapi::tbb::filter_mode`. -/
inductive filter_mode where
  | parallel
  | serial_out_of_order
  | serial_in_order
  deriving DecidableEq, Repr

/-- The functors that the filters wrap. -/
inductive functor_name where
  | load_png_file
  | decode_png_image
  | decode_png
  | get_pixel_blocks
  | encode_bc1_image
  | encode_bc7_image
  | save_bc1_file
  | save_bc7_file
  deriving DecidableEq, Repr

/-- The pipeline stages of the specification. -/
inductive stage where
  | load
  | decode
  | reblock
  | encode
  | write
  deriving DecidableEq, Repr

/-- The stage a functor implements. -/
def functor_name.stage : functor_name → stage
  | functor_name.load_png_file => stage.load
  | functor_name.decode_png_image => stage.decode
  | functor_name.decode_png => stage.decode
  | functor_name.get_pixel_blocks => stage.reblock
  | functor_name.encode_bc1_image => stage.encode
  | functor_name.encode_bc7_image => stage.encode
  | functor_name.save_bc1_file => stage.write
  | functor_name.save_bc7_file => stage.write

/-- What `oneapi::tbb::make_filter(mode, body)` records. -/
structure filter where
  mode : filter_mode
  body : functor_name
  deriving DecidableEq, Repr

/-- The function `encoding_filter` of `pipeline.cpp:195-202`. -/
def encoding_filter (format : format_type) : filter :=
  match format with
  | format_type.bc1 => ⟨filter_mode.parallel, functor_name.encode_bc1_image⟩
  | format_type.bc7 => ⟨filter_mode.parallel, functor_name.encode_bc7_image⟩

/-- The function `save_filter` of `pipeline.cpp:204-211`. -/
def save_filter (format : format_type) : filter :=
  match format with
  | format_type.bc1 => ⟨filter_mode.parallel, functor_name.save_bc1_file⟩
  | format_type.bc7 => ⟨filter_mode.parallel, functor_name.save_bc7_file⟩

/-- The chain `filters` that `encode_as_dds` composes with `&` (`pipeline.cpp:226-231`), first
filter first. -/
def encode_as_dds_filters (format : format_type) : List filter :=
  [⟨filter_mode.serial_in_order, functor_name.load_png_file⟩,
    ⟨filter_mode.parallel, functor_name.decode_png_image⟩,
    ⟨filter_mode.parallel, functor_name.get_pixel_blocks⟩,
    encoding_filter format,
    save_filter format]

/-- The function `decode_png_filter` of `filter_decode_png.cpp:81-85`. -/
def decode_png_filter : filter :=
  ⟨filter_mode.serial_in_order, functor_name.decode_png⟩

/-- The function `pixel_blocks_filter` of `filter_pixel_blocks.cpp:23-26`. -/
def pixel_blocks_filter : filter :=
  ⟨filter_mode.parallel, functor_name.get_pixel_blocks⟩

/-! ## A run of the pipeline of `encode_as_dds` -/

/-- The arguments `encode_as_dds` reads. -/
structure args_data where
  verbose : Bool
  vflip : Bool
  format : format_type
  level : Nat
  deriving DecidableEq, Repr

/-- The state of a run: the shared variables, the file system, the work units waiting in front of
each stage, and whether the first filter has stopped the flow. The last three fields are
bookkeeping: the invocations of the first filter, the files the writer has completed, and the
calls made to a block encoder. -/
structure run_state where
  vars : shared_vars
  fs : file_system
  stopped : Bool
  loaded : List png_file
  decoded : List raw_image
  blocked : List pixel_block_image
  encoded : List dds_image
  load_calls : Nat
  files_written : Nat
  encoder_calls : Nat

/-- The state in which `parallel_pipeline` starts: `std::atomic<std::size_t> counter` is
value-initialised (C++20) and the queue is empty. -/
def run_state.start (fs : file_system) : run_state :=
  ⟨⟨0, []⟩, fs, false, [], [], [], [], 0, 0, 0⟩

/-- The number of work units in flight. -/
def run_state.in_flight (s : run_state) : Nat :=
  s.loaded.length + s.decoded.length + s.blocked.length + s.encoded.length

/-- One thing the scheduler can do: invoke the first filter, or run a later filter on the unit at
position `i` of its input. -/
inductive run_event where
  | load
  | decode (i : Nat)
  | reblock (i : Nat)
  | encode (i : Nat)
  | write (i : Nat)
  deriving DecidableEq, Repr

/-- The effect of one scheduler event. The first filter is invoked only while the flow is not
stopped and fewer than `tokens` units are in flight: this is the contract of
`oneapi::tbb::parallel_pipeline(tokens, filters)`, to which `encode_as_dds` hands its `tokens`
unchanged. An event on a position that holds no unit does nothing. -/
def run_step (ext : externals) (le : Bool) (tokens : Nat) (arguments : args_data)
    (paths : paths_vector) (s : run_state) : run_event → run_state
  | run_event.load =>
    if s.stopped ∨ tokens ≤ s.in_flight then s
    else
      let r := load_png_file paths s.fs s.vars
      if r.1.stop then { s with vars := r.2, stopped := true, load_calls := s.load_calls + 1 }
      else { s with vars := r.2, loaded := s.loaded ++ [r.1.file],
                    load_calls := s.load_calls + 1 }
  | run_event.decode i =>
    match s.loaded[i]? with
    | none => s
    | some file =>
      let r := decode_png_image ext paths arguments.vflip s.vars file
      { s with vars := r.2, loaded := s.loaded.eraseIdx i, decoded := s.decoded ++ [r.1] }
  | run_event.reblock i =>
    match s.decoded[i]? with
    | none => s
    | some img =>
      { s with decoded := s.decoded.eraseIdx i, blocked := s.blocked ++ [ext.to_blocks img] }
  | run_event.encode i =>
    match s.blocked[i]? with
    | none => s
    | some pixel_image =>
      let r := encode_image ext arguments.format arguments.level pixel_image
      { s with blocked := s.blocked.eraseIdx i, encoded := s.encoded ++ [r.result],
               encoder_calls := s.encoder_calls + r.encoder_calls }
  | run_event.write i =>
    match s.encoded[i]? with
    | none => s
    | some dds_img =>
      match save_file le arguments.format paths dds_img with
      | none => { s with encoded := s.encoded.eraseIdx i }
      | some [] => { s with encoded := s.encoded.eraseIdx i }
      | some (op :: ops) =>
        { s with fs := apply_ops ext.can_open s.fs none (op :: ops),
                 encoded := s.encoded.eraseIdx i,
                 files_written :=
                   s.files_written + (if all_opened ext.can_open (op :: ops) then 1 else 0) }

/-- The state after a schedule of events. -/
def run (ext : externals) (le : Bool) (tokens : Nat) (arguments : args_data)
    (paths : paths_vector) (s : run_state) (schedule : List run_event) : run_state :=
  schedule.foldl (run_step ext le tokens arguments paths) s

/-! ## The progress and error reporter (`pipeline.cpp:164-193`) -/

/-- What `error_reporting` writes to the terminal: a progress line without a line end (`cout`),
a lone line end (`cerr`), an error text followed by a line end (`cerr`), and the last progress
line with its line end (`cout`). -/
inductive report_line where
  | progress (done total : Nat)
  | newline
  | error_text (text : String)
  | last_progress (total : Nat)
  deriving DecidableEq, Repr

/-- The characters of a `report_line`. -/
def report_line.text : report_line → String
  | report_line.progress done total => "\rProgress: " ++ toString done ++ "/" ++ toString total
  | report_line.newline => "\n"
  | report_line.error_text text => text ++ "\n"
  | report_line.last_progress total =>
    "\rProgress: " ++ toString total ++ "/" ++ toString total ++ "\n"

/-- What the reporter observes of the other threads during one pass of its outer loop: the value
of `progress` read by the loop condition, the messages `try_pop` hands out before it reports an
empty queue, and the value of `progress` read into `current_progress`. -/
structure observation where
  check : Nat
  errors : List String
  sample : Nat
  deriving DecidableEq, Repr

/-- The inner loop `while (error_log.try_pop(error_str))` of the sampling loop: returns the flag
`requires_newline` afterwards and the lines written. -/
def drain_in_loop (requires_newline : Bool) : List String → Bool × List report_line
  | [] => (requires_newline, [])
  | error_str :: rest =>
    let r := drain_in_loop false rest
    (r.1, (if requires_newline then [report_line.newline] else []) ++
      report_line.error_text error_str :: r.2)

/-- The outer loop `while (progress < total)`: one observation per pass. The loop ends at the
first pass whose condition reads a value that is not below `total`, or with the observations.
Returns the lines written and the flag `requires_newline` afterwards. -/
def sampling_loop (total : Nat) :
    List observation → Nat → Bool → List report_line × Bool
  | [], _, requires_newline => ([], requires_newline)
  | o :: rest, last_progress, requires_newline =>
    if o.check < total then
      let d := drain_in_loop requires_newline o.errors
      if o.sample > last_progress ∧ o.sample < total then
        let r := sampling_loop total rest o.sample true
        (d.2 ++ report_line.progress o.sample total :: r.1, r.2)
      else
        let r := sampling_loop total rest last_progress d.1
        (d.2 ++ r.1, r.2)
    else ([], requires_newline)

/-- The function `error_reporting`: the sampling loop, then the drain of the messages still in
the queue (`remaining`), then the last progress line. -/
def error_reporting (total : Nat) (observations : List observation) (remaining : List String) :
    List report_line :=
  (sampling_loop total observations 0 false).1 ++
    remaining.map report_line.error_text ++ [report_line.last_progress total]

/-- Whether every error text is written on a fresh line: `pending` says that the last thing
written is a progress line that has not been ended. -/
def keeps_progress_line (pending : Bool) : List report_line → Bool
  | [] => true
  | report_line.progress _ _ :: rest => keeps_progress_line true rest
  | report_line.newline :: rest => keeps_progress_line false rest
  | report_line.error_text _ :: rest => !pending && keeps_progress_line false rest
  | report_line.last_progress _ :: rest => keeps_progress_line false rest

/-! ## Concrete environments for the evaluations -/

/-- The source path of slot `k`, as the stages look it up. -/
def source_path (paths : paths_vector) (k : Nat) : String :=
  (paths[k]?.map Prod.fst).getD ""

/-- A total resampling kernel seen as a `resize_fn` that never throws. -/
def total_resize (r : image → Nat → Nat → filter_type → List Nat) : resize_fn :=
  fun input w h f => Except.ok (r input w h f)


/-- Stand-ins for the external functions: every destination can be opened, the decoder rejects
an empty buffer and otherwise gives a 4x4 image, one block per image, and the encoders emit one
64-bit block. -/
def sample_externals : externals where
  can_open := fun _ => true
  decode := fun file_index path buffer _ =>
    if buffer.isEmpty then Except.error ("Could not read header data of " ++ path)
    else Except.ok ⟨file_index, 4, 4, buffer⟩
  to_blocks := fun img => ⟨img.file_index, [img.buffer]⟩
  bc1_encode := fun _ pixel_image => ⟨[1, 2, 4], [513], pixel_image.file_index⟩
  bc7_encode_params := fun level => level
  bc7_encode := fun _ pixel_image => ⟨[1, 2, 4], [513, 7], pixel_image.file_index⟩

/-- Whether the last thing written is a progress line that has not been ended, after the lines
`lines` have been written. -/
def pending_after (pending : Bool) : List report_line → Bool
  | [] => pending
  | report_line.progress _ _ :: rest => pending_after true rest
  | _ :: rest => pending_after false rest


/-! ## Path collection (`task.cpp:23-108`) -/

/-- The operations of `boost::filesystem` and of the regular expression that `task.cpp` uses, over
a type `P` of paths: `fs::is_directory`, `fs::exists`, `path::extension().string()`,
`path::string()`, `regex::match`, `path::parent_path()`, `path::stem()`, `operator/`,
`operator+=` with a string, `fs::relative`, the paths a `recursive_directory_iterator` visits
under a directory for a depth limit, and the lines of a text file read as paths. -/
structure path_ops (P : Type) where
  is_directory : P → Bool
  file_exists : P → Bool
  extension : P → String
  path_string : P → String
  regex_match : String → Bool
  parent_path : P → P
  stem : P → P
  join : P → P → P
  concat : P → String → P
  relative : P → P → P
  entries : P → Nat → List P
  lines : P → List P

/-- The fields of `png2dds::args::data` that `get_paths` reads (the regular expression is part of
`path_ops`). -/
structure task_args (P : Type) where
  input : P
  output : Option P
  overwrite : Bool
  depth : Nat

/-- The constant `png_extension`. -/
def png_extension : String := ".png"

/-- The constant `txt_extension`. -/
def txt_extension : String := ".txt"

/-- The function `has_extension`: the lower-cased extension equals `extension`. -/
def has_extension {P : Type} (ops : path_ops P) (path : P) (extension : String) : Bool :=
  (ops.extension path).toLower == extension

/-- The function `is_valid_source`. -/
def is_valid_source {P : Type} (ops : path_ops P) (path : P) : Bool :=
  has_extension ops path png_extension && ops.regex_match (ops.path_string path)

/-- The function `to_dds_path`: `(output / png_path.stem()) += ".dds"`. -/
def to_dds_path {P : Type} (ops : path_ops P) (png_path output : P) : P :=
  ops.concat (ops.join output (ops.stem png_path)) ".dds"

/-- The function `add_files`. -/
def add_files {P : Type} (ops : path_ops P) (png_path dds_path : P) (paths : List (P × P))
    (overwrite : Bool) : List (P × P) :=
  if overwrite || !ops.file_exists dds_path then paths ++ [(png_path, dds_path)] else paths

/-- The function `process_directory`, as far as it fills `paths`: the loop body is run for every
path the iterator visits. The directories it creates on the way are not files, and are left out
of the model. -/
def process_directory {P : Type} (ops : path_ops P) (paths : List (P × P)) (input output : P)
    (different_output overwrite : Bool) (depth : Nat) : List (P × P) :=
  (ops.entries input depth).foldl
    (fun acc current_input =>
      if is_valid_source ops current_input then
        let current_output :=
          ops.join output (ops.relative (ops.parent_path current_input) input)
        let dds_path := to_dds_path ops current_input
          (if different_output then current_output else ops.parent_path current_input)
        add_files ops current_input dds_path acc overwrite
      else acc)
    paths

/-- The body of `get_paths` up to the comment `Process the list in order ignoring duplicates`:
the list `paths` as collected from a directory, a single PNG file, or a text file of paths. -/
def collect_paths {P : Type} (ops : path_ops P) (arguments : task_args P) : List (P × P) :=
  let input := arguments.input
  let different_output := arguments.output.isSome
  let output := arguments.output.getD (ops.parent_path input)
  if ops.is_directory input then
    process_directory ops [] input output different_output arguments.overwrite arguments.depth
  else if is_valid_source ops input then
    add_files ops input (to_dds_path ops input output) [] arguments.overwrite
  else if has_extension ops input txt_extension then
    (ops.lines input).foldl
      (fun acc current_path =>
        if ops.is_directory current_path then
          process_directory ops acc current_path current_path false arguments.overwrite
            arguments.depth
        else if is_valid_source ops current_path then
          add_files ops current_path
            (to_dds_path ops current_path (ops.parent_path current_path)) acc
            arguments.overwrite
        else acc)
      []
  else []

/-- The comparison `operator<` of `std::pair`: lexicographic, built from `<` on the components.
The order of `boost::filesystem::path` is the linear order of `P`. -/
def pair_lt {P : Type} [LinearOrder P] (a b : P × P) : Bool :=
  decide (a.1 < b.1) || (!decide (b.1 < a.1) && decide (a.2 < b.2))

/-- Not greater: `!(b < a)`. -/
abbrev pair_le {P : Type} [LinearOrder P] (a b : P × P) : Prop := pair_lt b a = false

/-- The call `std::sort(paths.begin(), paths.end())`. The standard fixes the result and not the
algorithm: the result is the rearrangement of the input that is ordered by `operator<`. It is
computed here by insertion. -/
def std_sort {P : Type} [LinearOrder P] (paths : List (P × P)) : List (P × P) :=
  paths.insertionSort pair_le

/-- The loop of `std::unique`: `prev` is the last element kept; an element equal to it is
skipped, any other element is kept and becomes the last element kept. -/
def std_unique_from {P : Type} [LinearOrder P] (prev : P × P) : List (P × P) → List (P × P)
  | [] => []
  | b :: rest =>
    if prev = b then std_unique_from prev rest else b :: std_unique_from b rest

/-- The statement `paths.erase(std::unique(paths.begin(), paths.end()), paths.end())`: of every
run of consecutive equal elements only the first stays. -/
def std_unique {P : Type} [LinearOrder P] : List (P × P) → List (P × P)
  | [] => []
  | a :: rest => a :: std_unique_from a rest

/-- The function `get_paths`: collect, sort, drop the duplicates. -/
def get_paths {P : Type} [LinearOrder P] (ops : path_ops P) (arguments : task_args P) :
    List (P × P) :=
  std_unique (std_sort (collect_paths ops arguments))

/-! ## Lemmas on streams and files -/

theorem content_store (fs : file_system) (p : String) (bytes : List Nat) :
    (fs.store p bytes).content p = some bytes := by
  simp [file_system.store, file_system.content]

theorem length_uint_bytes (le : Bool) (w v : Nat) : (uint_bytes le w v).length = w := by
  cases le <;> simp [uint_bytes]

theorem length_blocks_bytes (le : Bool) (blocks : List Nat) :
    (blocks_bytes le blocks).length = 8 * blocks.length := by
  induction blocks with
  | nil => simp [blocks_bytes]
  | cons b bs ih =>
    have h : blocks_bytes le (b :: bs) = uint_bytes le 8 b ++ blocks_bytes le bs := by
      simp [blocks_bytes]
    rw [h, List.length_append, ih, length_uint_bytes, List.length_cons]
    ring

theorem block_size_bytes_eq (img : dds_image) (h : img.blocks.length < 2 ^ 60) :
    block_size_bytes img = 8 * img.blocks.length := by
  unfold block_size_bytes
  have h1 : img.blocks.length * 8 < 2 ^ 63 := by omega
  have h2 : (img.blocks.length * 8) % 2 ^ 64 = img.blocks.length * 8 :=
    Nat.mod_eq_of_lt (by omega)
  simp only [h2, h1, if_true]
  omega

theorem take_block_size_bytes (le : Bool) (img : dds_image) (h : img.blocks.length < 2 ^ 60) :
    (blocks_bytes le img.blocks).take (block_size_bytes img) = blocks_bytes le img.blocks := by
  apply List.take_of_length_le
  rw [block_size_bytes_eq img h, length_blocks_bytes]

theorem length_header_extension_bytes (le : Bool) : (header_extension.bytes le).length = 20 := by
  simp [DDS_HEADER_DXT10.bytes, length_uint_bytes]

/-! ## The DDS writers -/

/-- C1: for an encoded image whose file index is not `ERROR_INDEX` (and is a slot of the path
list, with a block array of a size a `std::vector` can have), `save_bc1_file` opens the
destination and writes exactly the magic `DDS `, then `header()`, then the block bytes, and
`save_bc7_file` writes the magic, `header()`, the 20 bytes of the constant extension
(BC7_UNORM, TEXTURE2D, 0, 1, 0) and then the block bytes; the block bytes are the
`8 * blocks().size()` bytes of the block array in order. The BC7 output is 20 bytes longer than
the BC1 output: it is the BC1 output with the extension inserted behind the header, and the
BC1 writer issues no write of the extension. Where the destination can be opened, the file
holds exactly these bytes afterwards; where the open fails, the writers do not notice and the
file system is left as it was. -/
theorem save_file_layout (le : Bool) (paths : paths_vector) (img : dds_image)
    (dst : String × String)
    (h_index : img.file_index ≠ error_file_index)
    (h_dst : paths[img.file_index]? = some dst)
    (h_size : img.blocks.length < 2 ^ 60) :
    save_bc1_file le paths img =
        some [stream_op.open_out dst.2, stream_op.put [68, 68, 83, 32],
          stream_op.put img.header, stream_op.put (blocks_bytes le img.blocks),
          stream_op.close] ∧
      save_bc7_file le paths img =
        some [stream_op.open_out dst.2, stream_op.put [68, 68, 83, 32],
          stream_op.put img.header, stream_op.put (header_extension.bytes le),
          stream_op.put (blocks_bytes le img.blocks), stream_op.close] ∧
      (∀ ops1 ops7, save_bc1_file le paths img = some ops1 →
        save_bc7_file le paths img = some ops7 →
        written_bytes ops1 = string_bytes "DDS " ++ img.header ++ blocks_bytes le img.blocks ∧
        written_bytes ops7 = string_bytes "DDS " ++ img.header ++ header_extension.bytes le ++
          blocks_bytes le img.blocks ∧
        (written_bytes ops7).length = (written_bytes ops1).length + 20 ∧
        (written_bytes ops1).length = 4 + img.header.length + 8 * img.blocks.length ∧
        written_bytes ops7 = (written_bytes ops1).take (4 + img.header.length) ++
          header_extension.bytes le ++ (written_bytes ops1).drop (4 + img.header.length) ∧
        (∀ (can_open : String → Bool) (fs : file_system), can_open dst.2 = true →
          (apply_ops can_open fs none ops1).content dst.2 = some (written_bytes ops1) ∧
          (apply_ops can_open fs none ops7).content dst.2 = some (written_bytes ops7)) ∧
        (∀ (can_open : String → Bool) (fs : file_system), can_open dst.2 = false →
          apply_ops can_open fs none ops1 = fs ∧ apply_ops can_open fs none ops7 = fs)) ∧
      header_extension.dxgiFormat = DXGI_FORMAT_BC7_UNORM ∧
      header_extension.resourceDimension = D3D10_RESOURCE_DIMENSION_TEXTURE2D ∧
      header_extension.miscFlag = 0 ∧ header_extension.arraySize = 1 ∧
      header_extension.miscFlags2 = 0 ∧
      (header_extension.bytes le).length = 20 ∧
      blocks_bytes le img.blocks = img.blocks.flatMap (uint_bytes le 8) ∧
      (blocks_bytes le img.blocks).length = 8 * img.blocks.length := by
  have h1 : save_bc1_file le paths img =
      some [stream_op.open_out dst.2, stream_op.put [68, 68, 83, 32],
        stream_op.put img.header, stream_op.put (blocks_bytes le img.blocks),
        stream_op.close] := by
    simp only [save_bc1_file, if_neg h_index, h_dst, take_block_size_bytes le img h_size]
    rfl
  have h7 : save_bc7_file le paths img =
      some [stream_op.open_out dst.2, stream_op.put [68, 68, 83, 32],
        stream_op.put img.header, stream_op.put (header_extension.bytes le),
        stream_op.put (blocks_bytes le img.blocks), stream_op.close] := by
    simp only [save_bc7_file, if_neg h_index, h_dst, take_block_size_bytes le img h_size]
    rfl
  have hm : string_bytes "DDS " = [68, 68, 83, 32] := by decide
  refine ⟨h1, h7, ?_, rfl, rfl, rfl, rfl, rfl, length_header_extension_bytes le, rfl,
    length_blocks_bytes le img.blocks⟩
  intro ops1 ops7 e1 e7
  rw [h1] at e1
  rw [h7] at e7
  cases e1
  cases e7
  have w1 : written_bytes [stream_op.open_out dst.2, stream_op.put [68, 68, 83, 32],
      stream_op.put img.header, stream_op.put (blocks_bytes le img.blocks), stream_op.close] =
      string_bytes "DDS " ++ img.header ++ blocks_bytes le img.blocks := by
    simp [written_bytes, hm]
  have w7 : written_bytes [stream_op.open_out dst.2, stream_op.put [68, 68, 83, 32],
      stream_op.put img.header, stream_op.put (header_extension.bytes le),
      stream_op.put (blocks_bytes le img.blocks), stream_op.close] =
      string_bytes "DDS " ++ img.header ++ header_extension.bytes le ++
        blocks_bytes le img.blocks := by
    simp [written_bytes, hm]
  have hl : (string_bytes "DDS " ++ img.header).length = 4 + img.header.length := by
    rw [hm]
    simp only [List.length_append, List.length_cons, List.length_nil]
  refine ⟨w1, w7, ?_, ?_, ?_, ?_, ?_⟩
  · rw [w1, w7]
    simp only [List.length_append, length_header_extension_bytes]
    omega
  · rw [w1, hm]
    simp only [List.length_append, length_blocks_bytes, List.length_cons, List.length_nil]
  · rw [w1, w7, List.take_left' hl, List.drop_left' hl]
  · intro can_open fs hopen
    constructor
    · rw [w1, hm]
      simp [apply_ops, content_store, hopen]
    · rw [w7, hm]
      simp [apply_ops, content_store, hopen]
  · intro can_open fs hopen
    constructor <;> simp [apply_ops, hopen]

/-- C1 at a concrete image: one block on a little-endian host, written to `a.dds`, once with
the open succeeding and once with the open failing. -/
theorem save_file_layout_witness :
    save_bc1_file true [("a.png", "a.dds")] ⟨[7, 9], [513], 0⟩ =
        some [stream_op.open_out "a.dds", stream_op.put [68, 68, 83, 32],
          stream_op.put [7, 9], stream_op.put (blocks_bytes true [513]), stream_op.close] ∧
      blocks_bytes true [513] = [1, 2, 0, 0, 0, 0, 0, 0] ∧
      header_extension.bytes true =
        [98, 0, 0, 0, 3, 0, 0, 0, 0, 0, 0, 0, 1, 0, 0, 0, 0, 0, 0, 0] ∧
      (apply_ops (fun _ => true) [] none
        [stream_op.open_out "a.dds", stream_op.put [68, 68, 83, 32], stream_op.put [7, 9],
          stream_op.put (blocks_bytes true [513]), stream_op.close]).content "a.dds" =
        some [68, 68, 83, 32, 7, 9, 1, 2, 0, 0, 0, 0, 0, 0] ∧
      apply_ops (fun _ => false) [] none
        [stream_op.open_out "a.dds", stream_op.put [68, 68, 83, 32], stream_op.put [7, 9],
          stream_op.put (blocks_bytes true [513]), stream_op.close] = [] :=
  ⟨(save_file_layout true [("a.png", "a.dds")] ⟨[7, 9], [513], 0⟩ ("a.png", "a.dds")
      (by decide) rfl (by decide)).1, by decide, by decide, by decide, by decide⟩

/-! ## Reblocking -/

/-- C2: `get_pixel_blocks::operator()` gives empty block data with `ERROR_INDEX` for an absent
image and keeps the file index of a present one; so its output is a sentinel exactly when the
input is absent or carries `ERROR_INDEX` itself. -/
theorem get_pixel_blocks_file_index (to_pixel_blocks : mipmap_image → List (List Nat)) :
    get_pixel_blocks to_pixel_blocks none = ⟨[], error_file_index⟩ ∧
      (∀ img : mipmap_image,
        (get_pixel_blocks to_pixel_blocks (some img)).file_index = img.file_index ∧
        (get_pixel_blocks to_pixel_blocks (some img)).image = to_pixel_blocks img) ∧
      (∀ input : Option mipmap_image,
        (get_pixel_blocks to_pixel_blocks input).file_index = error_file_index ↔
          (input = none ∨ ∃ img, input = some img ∧ img.file_index = error_file_index)) := by
  refine ⟨rfl, fun img => ⟨rfl, rfl⟩, ?_⟩
  intro input
  cases input with
  | none => simp [get_pixel_blocks]
  | some img => simp [get_pixel_blocks]

/-! ## Decoding -/

/-- C4, refuted as stated: the only source file does not exist. `load_png_file::operator()`
emits the file with empty bytes and index 0 and does not stop the flow, but the error queue is
as empty as before: it has pushed no message that names `missing.png`. -/
theorem load_png_file_missing_file_pushes_nothing :
    (load_png_file [("missing.png", "missing.dds")] [] ⟨0, []⟩).1 = ⟨⟨[], 0⟩, false⟩ ∧
      (load_png_file [("missing.png", "missing.dds")] [] ⟨0, []⟩).2.error_log = [] ∧
      ¬ ∃ message ∈ (load_png_file [("missing.png", "missing.dds")] [] ⟨0, []⟩).2.error_log,
        occurs_in "missing.png" message := by
  have h : (load_png_file [("missing.png", "missing.dds")] [] ⟨0, []⟩).2.error_log = [] := by
    decide
  refine ⟨by decide, h, ?_⟩
  rintro ⟨message, hm, _⟩
  rw [h] at hm
  cases hm

/-- No invocation of `load_png_file::operator()` changes the error queue. -/
theorem load_png_file_error_log (paths : paths_vector) (fs : file_system) (s : shared_vars) :
    (load_png_file paths fs s).2.error_log = s.error_log := by
  by_cases h : s.counter < paths.length <;> simp [load_png_file, h]


theorem load_png_file_in_range (paths : paths_vector) (fs : file_system) (c : Nat)
    (log : List String) (hc : c < paths.length) (hn : paths.length < 2 ^ 64) :
    load_png_file paths fs ⟨c, log⟩ =
      (⟨⟨read_all fs (source_path paths c), c⟩, false⟩, ⟨c + 1, log⟩) := by
  have hm : (c + 1) % 2 ^ 64 = c + 1 := Nat.mod_eq_of_lt (by omega)
  unfold load_png_file
  simp only [hm, dif_pos hc]
  simp [source_path, List.getElem?_eq_getElem hc]

theorem load_png_file_at_end (paths : paths_vector) (fs : file_system) (c : Nat)
    (log : List String) (hc : paths.length ≤ c) :
    load_png_file paths fs ⟨c, log⟩ = (⟨⟨[], 0⟩, true⟩, ⟨(c + 1) % 2 ^ 64, log⟩) := by
  have h : ¬ c < paths.length := by omega
  simp [load_png_file, h]

theorem after_loads_in_range (paths : paths_vector) (fs : file_system) (log : List String)
    (hn : paths.length < 2 ^ 64) (k : Nat) :
    ∀ c, c + k ≤ paths.length → after_loads paths fs k ⟨c, log⟩ = ⟨c + k, log⟩ := by
  induction k with
  | zero => intro c _; rfl
  | succ k ih =>
    intro c hck
    have hc : c < paths.length := by omega
    simp only [after_loads, load_png_file_in_range paths fs c log hc hn]
    rw [ih (c + 1) (by omega)]
    congr 1
    omega

theorem load_until_stop_from (paths : paths_vector) (fs : file_system) (log : List String)
    (hn : paths.length < 2 ^ 64) (fuel : Nat) :
    ∀ c, c ≤ paths.length → paths.length - c < fuel →
      load_until_stop paths fs fuel ⟨c, log⟩ =
        ((List.range' c (paths.length - c)).map
            (fun k => (⟨read_all fs (source_path paths k), k⟩ : png_file)),
          true, ⟨(paths.length + 1) % 2 ^ 64, log⟩) := by
  induction fuel with
  | zero => intro c _ h; omega
  | succ fuel ih =>
    intro c hc hfuel
    by_cases hlt : c < paths.length
    · have hsub : paths.length - c = (paths.length - (c + 1)) + 1 := by omega
      simp only [load_until_stop, load_png_file_in_range paths fs c log hlt hn]
      rw [ih (c + 1) (by omega) (by omega), hsub]
      simp [List.range'_succ]
    · have hce : c = paths.length := by omega
      subst hce
      simp [load_until_stop, load_png_file_at_end paths fs paths.length log (le_refl _)]

/-- C5: with the counter starting at 0 and `n` input files, invocation number `k < n` of
`load_png_file::operator()` emits the bytes of the source path of slot `k` with file index `k`
and does not stop the flow; invocation number `n` stops the flow and returns a file without
data. The run to the stop therefore emits the indices `0, 1, ..., n-1` in this order, each below
`n` and different from `ERROR_INDEX`, and with no input file the first invocation stops. -/
theorem load_png_file_sequence (paths : paths_vector) (fs : file_system) (log : List String)
    (hn : paths.length < 2 ^ 64) :
    (∀ k, k < paths.length →
      load_png_file paths fs (after_loads paths fs k ⟨0, log⟩) =
        (⟨⟨read_all fs (source_path paths k), k⟩, false⟩, ⟨k + 1, log⟩)) ∧
      (load_png_file paths fs (after_loads paths fs paths.length ⟨0, log⟩)).1 =
        ⟨⟨[], 0⟩, true⟩ ∧
      (load_until_stop paths fs (paths.length + 1) ⟨0, log⟩).1 =
        (List.range paths.length).map
          (fun k => (⟨read_all fs (source_path paths k), k⟩ : png_file)) ∧
      (load_until_stop paths fs (paths.length + 1) ⟨0, log⟩).2.1 = true ∧
      ((load_until_stop paths fs (paths.length + 1) ⟨0, log⟩).1.map png_file.file_index =
        List.range paths.length) ∧
      (∀ f ∈ (load_until_stop paths fs (paths.length + 1) ⟨0, log⟩).1,
        f.file_index < paths.length ∧ f.file_index ≠ error_file_index) ∧
      (paths = [] → (load_png_file paths fs ⟨0, log⟩).1.stop = true) := by
  have hrun := load_until_stop_from paths fs log hn (paths.length + 1) 0 (Nat.zero_le _)
    (by omega)
  rw [Nat.sub_zero, ← List.range_eq_range'] at hrun
  refine ⟨?_, ?_, ?_, ?_, ?_, ?_, ?_⟩
  · intro k hk
    rw [after_loads_in_range paths fs log hn k 0 (by omega), Nat.zero_add]
    exact load_png_file_in_range paths fs k log hk hn
  · rw [after_loads_in_range paths fs log hn paths.length 0 (by omega), Nat.zero_add,
      load_png_file_at_end paths fs paths.length log (le_refl _)]
  · rw [hrun]
  · rw [hrun]
  · rw [hrun]
    simp [Function.comp_def]
  · intro f hf
    rw [hrun] at hf
    simp only [List.mem_map, List.mem_range] at hf
    obtain ⟨k, hk, rfl⟩ := hf
    refine ⟨hk, ?_⟩
    simp only [error_file_index, size_max]
    omega
  · intro hp
    subst hp
    rfl

/-- C5 at two input files, the first of which holds three bytes and the second of which is
missing: the run emits index 0 and index 1 and then stops. -/
theorem load_png_file_sequence_witness :
    [("a.png", "a.dds"), ("b.png", "b.dds")].length < 2 ^ 64 ∧
      (load_until_stop [("a.png", "a.dds"), ("b.png", "b.dds")] [("a.png", [1, 2, 3])] 3
          ⟨0, []⟩).1 = [⟨[1, 2, 3], 0⟩, ⟨[], 1⟩] :=
  ⟨by decide,
    (load_png_file_sequence [("a.png", "a.dds"), ("b.png", "b.dds")] [("a.png", [1, 2, 3])] []
      (by decide)).2.2.1.trans (by decide)⟩


/-! ## Sentinels in the encoder and the writer -/

theorem eraseIdx_append_last {α : Type} (l : List α) (a : α) :
    (l ++ [a]).eraseIdx l.length = l := by
  induction l with
  | nil => rfl
  | cons b bs ih => simp [List.eraseIdx, ih]

/-- C6: for a block image whose file index is `ERROR_INDEX`, and for both formats, the encoding
functor calls no block encoder and returns a unit with `ERROR_INDEX`; a writer given a unit with
`ERROR_INDEX` issues no stream operation (it opens nothing and writes nothing); so a sentinel
that is encoded and then written leaves the file system, the count of written files and the
count of encoder calls as they were. -/
theorem sentinel_is_skipped (ext : externals) (le : Bool) (tokens : Nat) (arguments : args_data)
    (paths : paths_vector) (level : Nat) (pixel_image : pixel_block_image)
    (h : pixel_image.file_index = error_file_index) :
    encode_bc1_image ext level pixel_image = ⟨dds_image.empty, 0⟩ ∧
      encode_bc7_image ext level pixel_image = ⟨dds_image.empty, 0⟩ ∧
      (encode_bc1_image ext level pixel_image).result.file_index = error_file_index ∧
      (encode_bc7_image ext level pixel_image).result.file_index = error_file_index ∧
      (∀ dds_img : dds_image, dds_img.file_index = error_file_index →
        save_bc1_file le paths dds_img = some [] ∧ save_bc7_file le paths dds_img = some []) ∧
      opened_paths [] = [] ∧ written_bytes [] = [] ∧
      (∀ (can_open : String → Bool) (fs : file_system) (cur : Option String),
        apply_ops can_open fs cur [] = fs) ∧
      (∀ (s : run_state) (i : Nat), s.blocked[i]? = some pixel_image →
        (run ext le tokens arguments paths s
            [run_event.encode i, run_event.write s.encoded.length]).fs = s.fs ∧
        (run ext le tokens arguments paths s
            [run_event.encode i, run_event.write s.encoded.length]).files_written =
          s.files_written ∧
        (run ext le tokens arguments paths s
            [run_event.encode i, run_event.write s.encoded.length]).encoder_calls =
          s.encoder_calls ∧
        (run ext le tokens arguments paths s
            [run_event.encode i, run_event.write s.encoded.length]).encoded = s.encoded) := by
  have e1 : encode_bc1_image ext level pixel_image = ⟨dds_image.empty, 0⟩ := by
    simp [encode_bc1_image, h]
  have e7 : encode_bc7_image ext level pixel_image = ⟨dds_image.empty, 0⟩ := by
    simp [encode_bc7_image, h]
  have hs : ∀ dds_img : dds_image, dds_img.file_index = error_file_index →
      save_bc1_file le paths dds_img = some [] ∧ save_bc7_file le paths dds_img = some [] := by
    intro dds_img hd
    simp [save_bc1_file, save_bc7_file, hd]
  refine ⟨e1, e7, ?_, ?_, hs, rfl, rfl, fun _ _ _ => rfl, ?_⟩
  · rw [e1]; rfl
  · rw [e7]; rfl
  · intro s i hi
    have henc : encode_image ext arguments.format arguments.level pixel_image =
        ⟨dds_image.empty, 0⟩ := by
      cases hf : arguments.format <;> simp [encode_image, encode_bc1_image, encode_bc7_image, h]
    have hsave : save_file le arguments.format paths dds_image.empty = some [] := by
      cases hf : arguments.format <;>
        simp [save_file, save_bc1_file, save_bc7_file, dds_image.empty]
    simp [run, run_step, hi, henc, hsave, eraseIdx_append_last]

/-- C6 at a concrete sentinel: a BC1 run with the sentinel waiting in front of the encoder. -/
theorem sentinel_is_skipped_witness :
    (⟨error_file_index, []⟩ : pixel_block_image).file_index = error_file_index ∧
      encode_bc1_image sample_externals 3 ⟨error_file_index, []⟩ = ⟨dds_image.empty, 0⟩ ∧
      encode_bc7_image sample_externals 3 ⟨error_file_index, []⟩ = ⟨dds_image.empty, 0⟩ :=
  ⟨rfl,
    (sentinel_is_skipped sample_externals true 2 ⟨false, false, format_type.bc1, 3⟩
      [("a.png", "a.dds")] 3 ⟨error_file_index, []⟩ rfl).1,
    (sentinel_is_skipped sample_externals true 2 ⟨false, false, format_type.bc1, 3⟩
      [("a.png", "a.dds")] 3 ⟨error_file_index, []⟩ rfl).2.1⟩

/-! ## The counter of `encode_as_dds` -/

theorem run_step_counter (ext : externals) (le : Bool) (tokens : Nat) (arguments : args_data)
    (paths : paths_vector) (s : run_state) (e : run_event) (he : e ≠ run_event.load) :
    (run_step ext le tokens arguments paths s e).vars.counter = s.vars.counter ∧
      (run_step ext le tokens arguments paths s e).load_calls = s.load_calls := by
  cases e with
  | load => exact absurd rfl he
  | decode i =>
    simp only [run_step]
    cases h : s.loaded[i]? with
    | none => exact ⟨rfl, rfl⟩
    | some file =>
      simp only [decode_png_image]
      split <;> simp
  | reblock i =>
    simp only [run_step]
    cases h : s.decoded[i]? <;> exact ⟨rfl, rfl⟩
  | encode i =>
    simp only [run_step]
    cases h : s.blocked[i]? <;> exact ⟨rfl, rfl⟩
  | write i =>
    simp only [run_step]
    cases h : s.encoded[i]? with
    | none => exact ⟨rfl, rfl⟩
    | some dds_img =>
      simp only []
      split <;> exact ⟨rfl, rfl⟩

theorem run_step_load (ext : externals) (le : Bool) (tokens : Nat) (arguments : args_data)
    (paths : paths_vector) (s : run_state) :
    ((s.stopped = false ∧ s.in_flight < tokens) →
      (run_step ext le tokens arguments paths s run_event.load).vars.counter =
          (s.vars.counter + 1) % 2 ^ 64 ∧
        (run_step ext le tokens arguments paths s run_event.load).load_calls =
          s.load_calls + 1) ∧
      (¬ (s.stopped = false ∧ s.in_flight < tokens) →
        run_step ext le tokens arguments paths s run_event.load = s) := by
  constructor
  · rintro ⟨h1, h2⟩
    have hc : ¬ (s.stopped = true ∨ tokens ≤ s.in_flight) := by
      simp [h1]; omega
    simp only [run_step, if_neg hc]
    by_cases hi : s.vars.counter < paths.length <;> simp [load_png_file, hi]
  · intro h
    have hc : s.stopped = true ∨ tokens ≤ s.in_flight := by
      by_cases hs : s.stopped = true
      · exact Or.inl hs
      · right
        have : s.stopped = false := by simpa using hs
        by_contra hlt
        exact h ⟨this, by omega⟩
    simp only [run_step, if_pos hc]

theorem run_step_counter_invariant (ext : externals) (le : Bool) (tokens : Nat)
    (arguments : args_data) (paths : paths_vector) (s : run_state) (e : run_event)
    (h : s.vars.counter = s.load_calls % 2 ^ 64) :
    (run_step ext le tokens arguments paths s e).vars.counter =
      (run_step ext le tokens arguments paths s e).load_calls % 2 ^ 64 := by
  by_cases he : e = run_event.load
  · subst he
    by_cases hc : s.stopped = false ∧ s.in_flight < tokens
    · obtain ⟨h1, h2⟩ := (run_step_load ext le tokens arguments paths s).1 hc
      rw [h1, h2, h]
      omega
    · rw [(run_step_load ext le tokens arguments paths s).2 hc]
      exact h
  · obtain ⟨h1, h2⟩ := run_step_counter ext le tokens arguments paths s e he
    rw [h1, h2]
    exact h

theorem run_counter_invariant (ext : externals) (le : Bool) (tokens : Nat)
    (arguments : args_data) (paths : paths_vector) (schedule : List run_event) :
    ∀ s : run_state, s.vars.counter = s.load_calls % 2 ^ 64 →
      (run ext le tokens arguments paths s schedule).vars.counter =
        (run ext le tokens arguments paths s schedule).load_calls % 2 ^ 64 := by
  induction schedule with
  | nil => intro s h; exact h
  | cons e es ih =>
    intro s h
    exact ih _ (run_step_counter_invariant ext le tokens arguments paths s e h)

/-- C7, refuted as stated: with one input file, after the first filter has run once and before
anything is written, the counter the reporter reads is 1 while the writer has completed no file;
and the writer, when it then completes the file, leaves the counter at 1. -/
theorem counter_is_not_the_written_count :
    (run sample_externals true 2 ⟨true, false, format_type.bc1, 0⟩ [("a.png", "a.dds")]
        (run_state.start [("a.png", [1])]) [run_event.load]).vars.counter = 1 ∧
      (run sample_externals true 2 ⟨true, false, format_type.bc1, 0⟩ [("a.png", "a.dds")]
        (run_state.start [("a.png", [1])]) [run_event.load]).files_written = 0 ∧
      (run sample_externals true 2 ⟨true, false, format_type.bc1, 0⟩ [("a.png", "a.dds")]
        (run_state.start [("a.png", [1])])
        [run_event.load, run_event.decode 0, run_event.reblock 0,
          run_event.encode 0]).vars.counter = 1 ∧
      (run sample_externals true 2 ⟨true, false, format_type.bc1, 0⟩ [("a.png", "a.dds")]
        (run_state.start [("a.png", [1])])
        [run_event.load, run_event.decode 0, run_event.reblock 0, run_event.encode 0,
          run_event.write 0]).vars.counter = 1 ∧
      (run sample_externals true 2 ⟨true, false, format_type.bc1, 0⟩ [("a.png", "a.dds")]
        (run_state.start [("a.png", [1])])
        [run_event.load, run_event.decode 0, run_event.reblock 0, run_event.encode 0,
          run_event.write 0]).files_written = 1 := by
  decide

/-- C7, amended: in the pipeline built by `encode_as_dds` the counter the reporter observes is
incremented by the first filter (Load), once per invocation, and by no other stage; the writer
in particular leaves it alone. At every point of a run its value is the number of invocations of
Load so far (modulo `2 ^ 64`). -/
theorem counter_counts_load_invocations (ext : externals) (le : Bool) (tokens : Nat)
    (arguments : args_data) (paths : paths_vector) (fs : file_system)
    (schedule : List run_event) :
    (run ext le tokens arguments paths (run_state.start fs) schedule).vars.counter =
        (run ext le tokens arguments paths (run_state.start fs) schedule).load_calls % 2 ^ 64 ∧
      (∀ (s : run_state) (e : run_event), e ≠ run_event.load →
        (run_step ext le tokens arguments paths s e).vars.counter = s.vars.counter) ∧
      (∀ (s : run_state) (i : Nat),
        (run_step ext le tokens arguments paths s (run_event.write i)).vars.counter =
          s.vars.counter) ∧
      (∀ s : run_state, (s.stopped = false ∧ s.in_flight < tokens) →
        (run_step ext le tokens arguments paths s run_event.load).vars.counter =
          (s.vars.counter + 1) % 2 ^ 64) := by
  refine ⟨run_counter_invariant ext le tokens arguments paths schedule _ rfl, ?_, ?_, ?_⟩
  · intro s e he
    exact (run_step_counter ext le tokens arguments paths s e he).1
  · intro s i
    exact (run_step_counter ext le tokens arguments paths s (run_event.write i)
      (by simp)).1
  · intro s hs
    exact ((run_step_load ext le tokens arguments paths s).1 hs).1


/-! ## The reporter -/

theorem keeps_progress_line_append (xs ys : List report_line) :
    ∀ pending : Bool, keeps_progress_line pending (xs ++ ys) =
      (keeps_progress_line pending xs && keeps_progress_line (pending_after pending xs) ys) := by
  induction xs with
  | nil => intro pending; simp [keeps_progress_line, pending_after]
  | cons x xs ih =>
    intro pending
    cases x <;> simp [keeps_progress_line, pending_after, ih, Bool.and_assoc]

theorem pending_after_append (xs ys : List report_line) :
    ∀ pending : Bool, pending_after pending (xs ++ ys) =
      pending_after (pending_after pending xs) ys := by
  induction xs with
  | nil => intro pending; rfl
  | cons x xs ih =>
    intro pending
    cases x <;> simp [pending_after, ih]

theorem drain_in_loop_keeps (errors : List String) :
    ∀ pending requires_newline : Bool, (pending = true → requires_newline = true) →
      keeps_progress_line pending (drain_in_loop requires_newline errors).2 = true ∧
      (pending_after pending (drain_in_loop requires_newline errors).2 = true →
        (drain_in_loop requires_newline errors).1 = true) := by
  induction errors with
  | nil =>
    intro pending requires_newline h
    simpa [drain_in_loop, keeps_progress_line, pending_after] using h
  | cons e es ih =>
    intro pending requires_newline h
    obtain ⟨ih1, ih2⟩ := ih false false (by simp)
    cases requires_newline with
    | true =>
      simp only [drain_in_loop, if_true, List.singleton_append, keeps_progress_line,
        pending_after, Bool.not_false, Bool.true_and]
      exact ⟨ih1, ih2⟩
    | false =>
      have hp : pending = false := by
        cases pending with
        | false => rfl
        | true => exact absurd (h rfl) (by simp)
      subst hp
      simp only [drain_in_loop, List.nil_append, keeps_progress_line, pending_after,
        Bool.not_false, Bool.true_and]
      exact ⟨by simpa using ih1, ih2⟩

theorem sampling_loop_keeps (total : Nat) (observations : List observation) :
    ∀ (last_progress : Nat) (pending requires_newline : Bool),
      (pending = true → requires_newline = true) →
      keeps_progress_line pending
        (sampling_loop total observations last_progress requires_newline).1 = true := by
  induction observations with
  | nil => intro _ _ _ _; rfl
  | cons o rest ih =>
    intro last_progress pending requires_newline h
    obtain ⟨hd1, hd2⟩ := drain_in_loop_keeps o.errors pending requires_newline h
    simp only [sampling_loop]
    by_cases hc : o.check < total
    · simp only [if_pos hc]
      by_cases hp : o.sample > last_progress ∧ o.sample < total
      · simp only [if_pos hp]
        rw [keeps_progress_line_append, hd1, Bool.true_and]
        simp only [keeps_progress_line]
        exact ih o.sample true true (fun _ => rfl)
      · simp only [if_neg hp]
        rw [keeps_progress_line_append, hd1, Bool.true_and]
        exact ih last_progress _ _ hd2
    · simp only [if_neg hc]
      rfl

/-- The messages drained inside the sampling loop are always written on a fresh line. -/
theorem error_reporting_in_loop_keeps_progress_line (total : Nat)
    (observations : List observation) :
    keeps_progress_line false (sampling_loop total observations 0 false).1 = true :=
  sampling_loop_keeps total observations 0 false false (by simp)

/-- C8, the failing case: two files; the loop prints `Progress: 1/2`, its next condition reads 2
and ends the loop, and one message is still in the queue. The drain after the loop writes the
message directly behind the unterminated progress line, with no line end in between. -/
theorem error_reporting_after_loop_breaks_progress_line :
    error_reporting 2 [⟨0, [], 1⟩, ⟨2, [], 2⟩] ["PNG Decoding error -> truncated"] =
        [report_line.progress 1 2, report_line.error_text "PNG Decoding error -> truncated",
          report_line.last_progress 2] ∧
      keeps_progress_line false
        (error_reporting 2 [⟨0, [], 1⟩, ⟨2, [], 2⟩] ["PNG Decoding error -> truncated"]) =
        false := by
  decide

/-! ## Mipmap generation -/

theorem process_levels_total (r : image → Nat → Nat → filter_type → List Nat)
    (filter : filter_type) (input : image) (order : List Nat) :
    ∀ imgs : List image,
      (process_levels (total_resize r) filter input order imgs).2 = none ∧
      ∀ j, (process_levels (total_resize r) filter input order imgs).1[j]? =
        (imgs[j]?).map (fun img =>
          if j ∈ order then ⟨img.width, img.height, r input img.width img.height filter⟩
          else img) := by
  induction order with
  | nil =>
    intro imgs
    simp [process_levels]
  | cons k ks ih =>
    intro imgs
    cases hk : imgs[k]? with
    | none =>
      have hstep : process_levels (total_resize r) filter input (k :: ks) imgs =
          process_levels (total_resize r) filter input ks imgs := by
        simp [process_levels, hk]
      rw [hstep]
      refine ⟨(ih imgs).1, ?_⟩
      intro j
      rw [(ih imgs).2 j]
      cases hj : imgs[j]? with
      | none => rfl
      | some img =>
        have hne : j ≠ k := by
          intro hjk
          rw [hjk, hk] at hj
          cases hj
        simp [hne]
    | some cur =>
      have hstep : process_levels (total_resize r) filter input (k :: ks) imgs =
          process_levels (total_resize r) filter input ks
            (imgs.set k ⟨cur.width, cur.height, r input cur.width cur.height filter⟩) := by
        simp [process_levels, hk, total_resize]
      rw [hstep]
      refine ⟨(ih _).1, ?_⟩
      intro j
      rw [(ih _).2 j, List.getElem?_set]
      have hlt : k < imgs.length := by
        rcases Nat.lt_or_ge k imgs.length with h | h
        · exact h
        · rw [List.getElem?_eq_none h] at hk
          cases hk
      by_cases hjk : k = j
      · subst hjk
        simp [hlt, hk]
      · have hjk2 : ¬ j = k := fun h => hjk h.symm
        simp [hjk, hjk2]

theorem mem_sequential_order (count k : Nat) :
    k ∈ sequential_order count ↔ 1 ≤ k ∧ k < count := by
  simp only [sequential_order, List.mem_range']
  constructor
  · rintro ⟨i, hi, rfl⟩
    omega
  · rintro ⟨h1, h2⟩
    exact ⟨k - 1, by omega, by omega⟩

theorem process_image_total (r : image → Nat → Nat → filter_type → List Nat)
    (order : List Nat) (m : mipmap_image) (filter : filter_type) (level0 : image)
    (rest : List image) (h_levels : m.images = level0 :: rest)
    (h_order : order.Perm (sequential_order m.mipmap_count)) :
    (process_image (total_resize r) order m filter).2 = none ∧
      (process_image (total_resize r) order m filter).1.file_index = m.file_index ∧
      ∀ j, (process_image (total_resize r) order m filter).1.images[j]? =
        (m.images[j]?).map (fun img =>
          if 1 ≤ j then ⟨img.width, img.height, r level0 img.width img.height filter⟩
          else img) := by
  have hp := process_levels_total r filter level0 order m.images
  simp only [process_image, h_levels]
  rw [h_levels] at hp
  refine ⟨hp.1, by trivial, ?_⟩
  intro j
  rw [hp.2 j]
  cases hj : (level0 :: rest)[j]? with
  | none => rfl
  | some img =>
    have hlt : j < m.mipmap_count := by
      rcases Nat.lt_or_ge j (level0 :: rest).length with h | h
      · simpa [mipmap_image.mipmap_count, h_levels] using h
      · rw [List.getElem?_eq_none h] at hj
        cases hj
    have hmem : j ∈ order ↔ 1 ≤ j := by
      rw [h_order.mem_iff, mem_sequential_order]
      exact ⟨fun h => h.1, fun h => ⟨h, hlt⟩⟩
    simp [hmem]

/-- C9: for a mipmap image with at least one level, a resampling kernel `r` and a filter,
`process_image` (run over the level indices 1..L-1 in any order) leaves level 0 and the
dimensions of every level unchanged and sets every level `k` with `1 <= k < L` to
`r(level 0, dimensions of level k, filter)`, computed from level 0; the result is the same for
every order of the levels, and with one level nothing is resized (not even by a kernel that
throws) and the image is unchanged. -/
theorem process_image_from_level_zero (r : image → Nat → Nat → filter_type → List Nat)
    (order : List Nat) (m : mipmap_image) (filter : filter_type) (level0 : image)
    (rest : List image) (h_levels : m.images = level0 :: rest)
    (h_order : order.Perm (sequential_order m.mipmap_count)) :
    (process_image (total_resize r) order m filter).2 = none ∧
      (process_image (total_resize r) order m filter).1.file_index = m.file_index ∧
      (process_image (total_resize r) order m filter).1.images.length = m.images.length ∧
      (process_image (total_resize r) order m filter).1.images[0]? = some level0 ∧
      (∀ (k : Nat) (img : image), m.images[k]? = some img →
        ∃ out : image, (process_image (total_resize r) order m filter).1.images[k]? = some out ∧
          out.width = img.width ∧ out.height = img.height) ∧
      (∀ (k : Nat) (img : image), 1 ≤ k → m.images[k]? = some img →
        (process_image (total_resize r) order m filter).1.images[k]? =
          some ⟨img.width, img.height, r level0 img.width img.height filter⟩) ∧
      (∀ order2 : List Nat, order2.Perm (sequential_order m.mipmap_count) →
        process_image (total_resize r) order2 m filter =
          process_image (total_resize r) order m filter) ∧
      (rest = [] → ∀ resize : resize_fn, process_image resize order m filter = (m, none)) := by
  obtain ⟨h_exc, h_index, h_get⟩ := process_image_total r order m filter level0 rest h_levels
    h_order
  refine ⟨h_exc, h_index, ?_, ?_, ?_, ?_, ?_, ?_⟩
  · simp only [process_image, h_levels]
    have hlen : ∀ (ks : List Nat) (imgs : List image),
        (process_levels (total_resize r) filter level0 ks imgs).1.length = imgs.length := by
      intro ks
      induction ks with
      | nil => intro imgs; rfl
      | cons k ks ih =>
        intro imgs
        cases hk : imgs[k]? with
        | none => simp [process_levels, hk, ih]
        | some cur => simp [process_levels, hk, total_resize, ih]
    exact hlen order (level0 :: rest)
  · rw [h_get 0, h_levels]
    simp
  · intro k img hk
    rw [h_get k, hk]
    by_cases h1 : 1 ≤ k
    · exact ⟨⟨img.width, img.height, r level0 img.width img.height filter⟩, by simp [h1],
        rfl, rfl⟩
    · exact ⟨img, by simp [h1], rfl, rfl⟩
  · intro k img h1 hk
    rw [h_get k, hk]
    simp [h1]
  · intro order2 h2
    obtain ⟨g_exc, g_index, g_get⟩ := process_image_total r order2 m filter level0 rest
      h_levels h2
    have himgs : (process_image (total_resize r) order2 m filter).1.images =
        (process_image (total_resize r) order m filter).1.images := by
      apply List.ext_getElem?
      intro j
      rw [g_get j, h_get j]
    have h1 : (process_image (total_resize r) order2 m filter).1 =
        (process_image (total_resize r) order m filter).1 := by
      cases hx : (process_image (total_resize r) order2 m filter).1
      cases hy : (process_image (total_resize r) order m filter).1
      rw [hx] at g_index himgs
      rw [hy] at h_index himgs
      simp only at g_index h_index himgs
      rw [g_index, h_index, himgs]
    exact Prod.ext h1 (by rw [g_exc, h_exc])
  · intro hrest resize
    subst hrest
    have hcount : m.mipmap_count = 1 := by simp [mipmap_image.mipmap_count, h_levels]
    rw [hcount] at h_order
    have hnil : order = [] := by
      have : sequential_order 1 = [] := rfl
      rw [this] at h_order
      exact List.Perm.eq_nil h_order
    subst hnil
    simp only [process_image, h_levels, process_levels]
    cases m
    simp_all

/-- C9 at a three-level image, with the levels processed in the order 2, 1. -/
theorem process_image_from_level_zero_witness :
    [2, 1].Perm (sequential_order 3) ∧
      (process_image (total_resize (fun input w h _ => List.replicate (w * h) input.width))
        [2, 1] ⟨5, [⟨4, 4, [9]⟩, ⟨2, 2, [0]⟩, ⟨1, 1, [0]⟩]⟩ filter_type.area).1.images[2]? =
        some ⟨1, 1, [4]⟩ :=
  ⟨by decide,
    (process_image_from_level_zero (fun input w h _ => List.replicate (w * h) input.width)
      [2, 1] ⟨5, [⟨4, 4, [9]⟩, ⟨2, 2, [0]⟩, ⟨1, 1, [0]⟩]⟩ filter_type.area ⟨4, 4, [9]⟩
      [⟨2, 2, [0]⟩, ⟨1, 1, [0]⟩] rfl (by decide)).2.2.2.2.2.1 2 ⟨1, 1, [0]⟩ (by decide) rfl⟩

/-! ## Pipeline assembly -/

/-- C10, refuted as stated: the filter returned by `decode_png_filter` does not have mode
parallel. -/
theorem decode_png_filter_is_not_parallel :
    decode_png_filter.mode ≠ filter_mode.parallel := by
  decide

/-- C10, amended: the pipeline of `encode_as_dds` is the composition, in this order, of Load,
Decode, Reblock, Encode and Write, built with the modes serial-in-order, parallel, parallel,
parallel, parallel for both formats; `pixel_blocks_filter` is parallel, and the filter returned
by `decode_png_filter` is a Decode stage with mode serial-in-order. -/
theorem pipeline_stages_and_modes (format : format_type) :
    (encode_as_dds_filters format).map (fun f => f.body.stage) =
        [stage.load, stage.decode, stage.reblock, stage.encode, stage.write] ∧
      (encode_as_dds_filters format).map filter.mode =
        [filter_mode.serial_in_order, filter_mode.parallel, filter_mode.parallel,
          filter_mode.parallel, filter_mode.parallel] ∧
      (encoding_filter format).mode = filter_mode.parallel ∧
      (save_filter format).mode = filter_mode.parallel ∧
      pixel_blocks_filter = ⟨filter_mode.parallel, functor_name.get_pixel_blocks⟩ ∧
      decode_png_filter.body.stage = stage.decode ∧
      decode_png_filter.mode = filter_mode.serial_in_order := by
  cases format <;> decide


/-! ## The token budget in the run model -/

theorem length_eraseIdx_append {α β : Type} (l : List α) (i : Nat) (a : β) (m : List β)
    (h : i < l.length) : (l.eraseIdx i).length + (m ++ [a]).length = l.length + m.length := by
  rw [List.length_eraseIdx, if_pos h, List.length_append, List.length_singleton]
  omega

theorem run_step_in_flight (ext : externals) (le : Bool) (tokens : Nat) (arguments : args_data)
    (paths : paths_vector) (s : run_state) (e : run_event) (h : s.in_flight ≤ tokens) :
    (run_step ext le tokens arguments paths s e).in_flight ≤ tokens := by
  have hidx : ∀ {α : Type} (l : List α) (i : Nat) (a : α), l[i]? = some a → i < l.length := by
    intro α l i a hi
    rcases Nat.lt_or_ge i l.length with hlt | hge
    · exact hlt
    · rw [List.getElem?_eq_none hge] at hi
      cases hi
  cases e with
  | load =>
    by_cases hc : s.stopped = false ∧ s.in_flight < tokens
    · have hg : ¬ (s.stopped = true ∨ tokens ≤ s.in_flight) := by
        simp [hc.1]; omega
      simp only [run_step, if_neg hg]
      cases hstop : (load_png_file paths s.fs s.vars).1.stop with
      | true =>
        simp only [if_true]
        exact h
      | false =>
        have hlt := hc.2
        simp only [Bool.false_eq_true, if_false]
        simp only [run_state.in_flight, List.length_append, List.length_singleton] at *
        omega
    · rw [(run_step_load ext le tokens arguments paths s).2 hc]
      exact h
  | decode i =>
    simp only [run_step]
    cases hi : s.loaded[i]? with
    | none => exact h
    | some file =>
      have := length_eraseIdx_append s.loaded i (decode_png_image ext paths arguments.vflip
        s.vars file).1 s.decoded (hidx _ _ _ hi)
      simp only [run_state.in_flight] at *
      omega
  | reblock i =>
    simp only [run_step]
    cases hi : s.decoded[i]? with
    | none => exact h
    | some img =>
      have := length_eraseIdx_append s.decoded i (ext.to_blocks img) s.blocked (hidx _ _ _ hi)
      simp only [run_state.in_flight] at *
      omega
  | encode i =>
    simp only [run_step]
    cases hi : s.blocked[i]? with
    | none => exact h
    | some pixel_image =>
      have := length_eraseIdx_append s.blocked i
        (encode_image ext arguments.format arguments.level pixel_image).result s.encoded
        (hidx _ _ _ hi)
      simp only [run_state.in_flight] at *
      omega
  | write i =>
    simp only [run_step]
    cases hi : s.encoded[i]? with
    | none => exact h
    | some dds_img =>
      have hlen : (s.encoded.eraseIdx i).length ≤ s.encoded.length := by
        rw [List.length_eraseIdx]
        split <;> omega
      simp only [run_state.in_flight] at h
      dsimp only
      cases hsave : save_file le arguments.format paths dds_img with
      | none =>
        simp only [run_state.in_flight]
        omega
      | some ops =>
        cases ops with
        | nil =>
          simp only [run_state.in_flight]
          omega
        | cons op rest =>
          simp only [run_state.in_flight]
          omega

/-- In the run model, where the first filter is invoked only while fewer than `tokens` units are
in flight (the contract of `oneapi::tbb::parallel_pipeline`), no schedule brings more than
`tokens` units in flight: every later stage hands on exactly the unit it took, and the writer
retires it. -/
theorem run_in_flight_bounded (ext : externals) (le : Bool) (tokens : Nat)
    (arguments : args_data) (paths : paths_vector) (fs : file_system)
    (schedule : List run_event) :
    (run ext le tokens arguments paths (run_state.start fs) schedule).in_flight ≤ tokens := by
  have hgen : ∀ (sched : List run_event) (s : run_state), s.in_flight ≤ tokens →
      (run ext le tokens arguments paths s sched).in_flight ≤ tokens := by
    intro sched
    induction sched with
    | nil => intro s h; exact h
    | cons e es ih =>
      intro s h
      exact ih _ (run_step_in_flight ext le tokens arguments paths s e h)
  exact hgen schedule _ (Nat.zero_le _)

/-! ## The sorted path list -/

theorem pair_lt_iff {P : Type} [LinearOrder P] (a b : P × P) :
    pair_lt a b = true ↔ a.1 < b.1 ∨ (a.1 = b.1 ∧ a.2 < b.2) := by
  simp only [pair_lt, Bool.or_eq_true, Bool.and_eq_true, decide_eq_true_eq,
    Bool.not_eq_true', decide_eq_false_iff_not]
  constructor
  · rintro (h | ⟨h1, h2⟩)
    · exact Or.inl h
    · rcases lt_or_eq_of_le (not_lt.mp h1) with h | h
      · exact Or.inl h
      · exact Or.inr ⟨h, h2⟩
  · rintro (h | ⟨h1, h2⟩)
    · exact Or.inl h
    · exact Or.inr ⟨by rw [h1]; exact lt_irrefl _, h2⟩

theorem pair_lt_iff_lex {P : Type} [LinearOrder P] (a b : P × P) :
    pair_lt a b = true ↔ toLex a < toLex b := by
  rw [pair_lt_iff, Prod.Lex.lt_iff]

theorem pair_le_iff_lex {P : Type} [LinearOrder P] (a b : P × P) :
    pair_le a b ↔ toLex a ≤ toLex b := by
  unfold pair_le
  rw [← not_lt, ← pair_lt_iff_lex, Bool.not_eq_true]

theorem pair_lt_trans {P : Type} [LinearOrder P] (a b c : P × P)
    (h1 : pair_lt a b = true) (h2 : pair_lt b c = true) : pair_lt a c = true := by
  rw [pair_lt_iff_lex] at *
  exact lt_trans h1 h2

theorem pair_lt_of_le_of_ne {P : Type} [LinearOrder P] (a b : P × P)
    (h1 : pair_le a b) (h2 : a ≠ b) : pair_lt a b = true := by
  rw [pair_le_iff_lex] at h1
  rw [pair_lt_iff_lex]
  exact lt_of_le_of_ne h1 (fun h => h2 (toLex.injective h))

theorem pair_lt_ne {P : Type} [LinearOrder P] (a b : P × P) (h : pair_lt a b = true) :
    a ≠ b := by
  intro hab
  rw [pair_lt_iff_lex, hab] at h
  exact lt_irrefl _ h

theorem std_sort_sorted {P : Type} [LinearOrder P] (paths : List (P × P)) :
    List.Sorted pair_le (std_sort paths) := by
  haveI : IsTotal (P × P) pair_le :=
    ⟨fun a b => by
      rw [pair_le_iff_lex, pair_le_iff_lex]
      exact le_total _ _⟩
  haveI : IsTrans (P × P) pair_le :=
    ⟨fun a b c h1 h2 => by
      rw [pair_le_iff_lex] at *
      exact le_trans h1 h2⟩
  exact List.sorted_insertionSort pair_le paths

theorem std_sort_perm {P : Type} [LinearOrder P] (paths : List (P × P)) :
    (std_sort paths).Perm paths :=
  List.perm_insertionSort pair_le paths

/-- Whatever algorithm `std::sort` runs, its result is `std_sort`: a rearrangement of the input
that is ordered by `operator<` is this list. -/
theorem std_sort_unique_result {P : Type} [LinearOrder P] (paths sorted : List (P × P))
    (h_perm : sorted.Perm paths) (h_sorted : List.Sorted pair_le sorted) :
    sorted = std_sort paths := by
  haveI : IsAntisymm (P × P) pair_le :=
    ⟨fun a b h1 h2 => by
      rw [pair_le_iff_lex] at *
      exact toLex.injective (le_antisymm h1 h2)⟩
  exact List.eq_of_perm_of_sorted (h_perm.trans (std_sort_perm paths).symm) h_sorted
    (std_sort_sorted paths)

theorem mem_std_unique_from {P : Type} [LinearOrder P] (l : List (P × P)) :
    ∀ (prev x : P × P), x ∈ prev :: std_unique_from prev l ↔ x ∈ prev :: l := by
  induction l with
  | nil => intro prev x; rfl
  | cons b rest ih =>
    intro prev x
    by_cases hb : prev = b
    · subst hb
      have hstep : std_unique_from prev (prev :: rest) = std_unique_from prev rest := by
        simp [std_unique_from]
      rw [hstep, ih prev x]
      simp
    · have hstep : std_unique_from prev (b :: rest) = b :: std_unique_from b rest := by
        simp [std_unique_from, hb]
      rw [hstep, List.mem_cons, ih b x]
      simp

theorem mem_std_unique {P : Type} [LinearOrder P] (l : List (P × P)) (x : P × P) :
    x ∈ std_unique l ↔ x ∈ l := by
  cases l with
  | nil => rfl
  | cons a rest => exact mem_std_unique_from rest a x

theorem std_unique_from_increasing {P : Type} [LinearOrder P] (l : List (P × P)) :
    ∀ prev : P × P, List.Sorted pair_le (prev :: l) →
      List.Pairwise (fun a b => pair_lt a b = true) (prev :: std_unique_from prev l) := by
  induction l with
  | nil =>
    intro prev _
    simp [std_unique_from]
  | cons b rest ih =>
    intro prev h
    have hpb : pair_le prev b := (List.pairwise_cons.mp h).1 b (List.mem_cons_self _ _)
    have htail : List.Sorted pair_le (b :: rest) := (List.pairwise_cons.mp h).2
    by_cases hb : prev = b
    · subst hb
      have hstep : std_unique_from prev (prev :: rest) = std_unique_from prev rest := by
        simp [std_unique_from]
      rw [hstep]
      exact ih prev htail
    · have hstep : std_unique_from prev (b :: rest) = b :: std_unique_from b rest := by
        simp [std_unique_from, hb]
      rw [hstep]
      have hrec := ih b htail
      have hlt : pair_lt prev b = true := pair_lt_of_le_of_ne prev b hpb hb
      refine List.pairwise_cons.mpr ⟨?_, hrec⟩
      intro x hx
      rcases List.mem_cons.mp hx with hxb | hx2
      · rw [hxb]
        exact hlt
      · exact pair_lt_trans prev b x hlt ((List.pairwise_cons.mp hrec).1 x hx2)

theorem std_unique_increasing {P : Type} [LinearOrder P] (l : List (P × P))
    (h : List.Sorted pair_le l) :
    List.Pairwise (fun a b => pair_lt a b = true) (std_unique l) := by
  cases l with
  | nil => exact List.Pairwise.nil
  | cons a rest => exact std_unique_from_increasing rest a h

/-- C12: for every set of arguments (and every state of the file system, every regular
expression), the list returned by `get_paths` is strictly increasing in `operator<` of the
pairs, so it is sorted and holds no pair twice, and it has exactly the members of the list that
was collected before the sort-and-deduplicate step: every collected pair is in it, and every
pair in it was collected. -/
theorem get_paths_sorted_without_duplicates {P : Type} [LinearOrder P] (ops : path_ops P)
    (arguments : task_args P) :
    List.Pairwise (fun a b => pair_lt a b = true) (get_paths ops arguments) ∧
      List.Sorted pair_le (get_paths ops arguments) ∧
      (get_paths ops arguments).Nodup ∧
      (∀ p : P × P, p ∈ get_paths ops arguments ↔ p ∈ collect_paths ops arguments) := by
  have hinc : List.Pairwise (fun a b => pair_lt a b = true) (get_paths ops arguments) :=
    std_unique_increasing _ (std_sort_sorted _)
  refine ⟨hinc, ?_, ?_, ?_⟩
  · refine List.Pairwise.imp ?_ hinc
    intro a b hab
    have h1 : toLex a < toLex b := (pair_lt_iff_lex a b).mp hab
    exact (pair_le_iff_lex a b).mpr (le_of_lt h1)
  · refine List.Pairwise.imp ?_ hinc
    intro a b hab
    exact pair_lt_ne a b hab
  · intro p
    unfold get_paths
    rw [mem_std_unique]
    exact (std_sort_perm _).mem_iff


/-! ## A source file that cannot be read -/

/-- C4, amended: for every index `i` below the number of input files, if reading the source file
of slot `i` fails, the invocation of Load for that slot emits a RawFile with empty bytes and
file index `i`, does not stop the flow, and pushes nothing onto the error channel. The message
for the file is pushed by the Decode stage that follows Load in `encode_as_dds`
(`decode_png_image`) when the decoder rejects the empty buffer: it replaces the unit by the
sentinel and pushes exactly one message, which holds the text of the decoder's error and
references the source path whenever that text does. -/
theorem load_png_file_read_failure (ext : externals) (paths : paths_vector) (fs : file_system)
    (vflip : Bool) (s : shared_vars)
    (h_slot : s.counter < paths.length)
    (h_read : fs.content (source_path paths s.counter) = none) :
    (load_png_file paths fs s).1 = ⟨⟨[], s.counter⟩, false⟩ ∧
      (load_png_file paths fs s).2.error_log = s.error_log ∧
      (∀ what : String,
        ext.decode s.counter (source_path paths s.counter) [] vflip = Except.error what →
        decode_png_image ext paths vflip (load_png_file paths fs s).2
            (load_png_file paths fs s).1.file =
          (⟨error_file_index, 0, 0, []⟩,
            ⟨(load_png_file paths fs s).2.counter,
              s.error_log ++ ["PNG Decoding error -> " ++ what]⟩) ∧
        occurs_in what ("PNG Decoding error -> " ++ what) ∧
        (occurs_in (source_path paths s.counter) what →
          occurs_in (source_path paths s.counter) ("PNG Decoding error -> " ++ what))) := by
  have hload : load_png_file paths fs s =
      (⟨⟨[], s.counter⟩, false⟩, ⟨(s.counter + 1) % 2 ^ 64, s.error_log⟩) := by
    have hsrc : source_path paths s.counter = paths[s.counter].1 := by
      simp [source_path, List.getElem?_eq_getElem h_slot]
    rw [hsrc] at h_read
    unfold load_png_file
    simp only [dif_pos h_slot, read_all, h_read, Option.getD_none]
  refine ⟨by rw [hload], by rw [hload], ?_⟩
  intro what h_decode
  refine ⟨?_, ?_, ?_⟩
  · rw [hload]
    unfold source_path at h_decode
    simp only [decode_png_image, h_decode]
  · exact ⟨"PNG Decoding error -> ".data, [], by simp [String.data_append]⟩
  · rintro ⟨before, after, h⟩
    refine ⟨"PNG Decoding error -> ".data ++ before, after, ?_⟩
    rw [String.data_append, ← h]
    simp

/-- C4 amended, at one input file that does not exist: Load emits the empty file with index 0 and
pushes nothing, and Decode then pushes the message of the decoder. -/
theorem load_png_file_read_failure_witness :
    (0 : Nat) < [("missing.png", "missing.dds")].length ∧
      file_system.content [] (source_path [("missing.png", "missing.dds")] 0) = none ∧
      (load_png_file [("missing.png", "missing.dds")] [] ⟨0, []⟩).1 = ⟨⟨[], 0⟩, false⟩ ∧
      (run sample_externals true 2 ⟨true, false, format_type.bc1, 0⟩
        [("missing.png", "missing.dds")] (run_state.start [])
        [run_event.load, run_event.decode 0]).vars.error_log =
        ["PNG Decoding error -> Could not read header data of missing.png"] :=
  ⟨by decide, by decide,
    (load_png_file_read_failure sample_externals [("missing.png", "missing.dds")] [] false
      ⟨0, []⟩ (by decide) (by decide)).1,
    by decide⟩

end todds
